import Mathlib

/-!
Shallow embedding of the AutoReader sources:

* `src/pdf_utils.py` — the chunk generator `extract_text_chunks_from_range`
  (digit localization, buffered sentence chunking, per-page error recovery);
* `src/tts_utils.py` — `load_tts_resources`, `is_tts_ready`,
  `generate_audio_chunk`, `clean_text_for_tts`;
* `src/audio_player_utils.py` and `src/autoreader.py` — the bounded audio
  queue between the synthesis loop and the playback loop, pause/stop
  handling, and `stop_reading`.

Text is modelled as `List Char` (Python `str` is a sequence of code
points). External effects (PDF page extraction, the neural inference call,
the audio device) are modelled as explicit inputs or opaque type
parameters; Python exceptions become `Option`/`Except` values at the
points where the source catches them.
-/

/-- The sentence-ending punctuation class of pdf_utils.py line 111
(the regex character class 。！？；). -/
def isPunct (c : Char) : Bool :=
  c = '。' || c = '！' || c = '？' || c = '；'

/-- Index of the first punctuation character of the text at position
`start` or later, modelling `punctuation_pattern.search(text_buffer,
search_start_index)` of pdf_utils.py line 146.  CPython clamps a negative
start position to 0; `Nat` subtraction at the call site reproduces that. -/
def findPunctIdx : List Char → Nat → Option Nat
  | [], _ => none
  | c :: t, 0 => if isPunct c then some 0 else (findPunctIdx t 0).map (· + 1)
  | _ :: t, st + 1 => (findPunctIdx t st).map (· + 1)

/-- The arabic_to_chinese replacement table of pdf_utils.py lines 114-125,
in dictionary insertion order. -/
def arabic_to_chinese : List (Char × Char) :=
  [('0', '零'), ('1', '一'), ('2', '二'), ('3', '三'), ('4', '四'),
   ('5', '五'), ('6', '六'), ('7', '七'), ('8', '八'), ('9', '九')]

/-- One `text.replace(arabic, chinese)` pass of pdf_utils.py line 135; with
a single-character pattern, `str.replace` substitutes character-wise. -/
def replaceChar (a b : Char) (s : List Char) : List Char :=
  s.map (fun c => if c = a then b else c)

/-- The replacement loop of pdf_utils.py lines 134-135: one `str.replace`
per table entry, in table order. -/
def applyDigitMap (s : List Char) : List Char :=
  arabic_to_chinese.foldl (fun t p => replaceChar p.1 p.2 t) s

/-- Per-character reading of the arabic_to_chinese table. -/
def digitToChinese (c : Char) : Char :=
  if c = '0' then '零' else if c = '1' then '一' else if c = '2' then '二'
  else if c = '3' then '三' else if c = '4' then '四' else if c = '5' then '五'
  else if c = '6' then '六' else if c = '7' then '七' else if c = '8' then '八'
  else if c = '9' then '九' else c

/-- ASCII digit test: the domain of the replacement table. -/
def isArabicDigit (c : Char) : Bool :=
  c = '0' || c = '1' || c = '2' || c = '3' || c = '4' ||
  c = '5' || c = '6' || c = '7' || c = '8' || c = '9'

/-- Whitespace as Python's `str.strip` and the regex class `[\s　]` of
tts_utils.py line 49 treat it, restricted to the characters this code base
can meet; U+3000 is the ideographic space named explicitly there. -/
def isWs (c : Char) : Bool :=
  c = ' ' || c = '\t' || c = '\n' || c = '\r' ||
  c = '\x0b' || c = '\x0c' || c = ' ' || c = '　'

/-- Python `str.strip()`: drop leading and trailing whitespace. -/
def stripChars (s : List Char) : List Char :=
  ((s.dropWhile isWs).reverse.dropWhile isWs).reverse

/-- The substitution `re.sub` with pattern `[\s　]+` and replacement a
single space (tts_utils.py line 49): every maximal whitespace run becomes
one space.  The boolean argument records whether the previous character
belonged to a whitespace run. -/
def collapseWsAux : Bool → List Char → List Char
  | _, [] => []
  | prevWs, c :: t =>
    if isWs c then
      if prevWs then collapseWsAux true t else ' ' :: collapseWsAux true t
    else c :: collapseWsAux false t

/-- clean_text_for_tts of tts_utils.py lines 48-51: collapse whitespace
runs to single spaces, then strip. -/
def clean_text_for_tts (s : List Char) : List Char :=
  stripChars (collapseWsAux false s)

/-- One yielded chunk dict of pdf_utils.py lines 158-163: `raw` is the
slice cut from the buffer (the local `chunk_text`), `text` its stripped
form, `tts` the cleaner applied to the stripped form (`tts_text`), and
`page` the 1-based page number assigned at emission. -/
structure Chunk where
  raw : List Char
  text : List Char
  tts : List Char
  page : Nat
deriving DecidableEq

instance : Inhabited Chunk := ⟨⟨[], [], [], 0⟩⟩

/-- The emission guard of pdf_utils.py lines 154-164 and 179-187: a cut
chunk is yielded only when `chunk_text.strip()` is non-empty. -/
def mkChunk (cleaner : List Char → List Char) (pageNum : Nat) (raw : List Char) :
    Option Chunk :=
  if stripChars raw = [] then none
  else some ⟨raw, stripChars raw, cleaner (stripChars raw), pageNum⟩

/-- The inner chunking loop of pdf_utils.py lines 140-194 acting on one
buffer state: while the buffer holds at least `cl` characters, cut at the
first punctuation mark at offset `cl - 1` or later; without one, flush the
whole buffer when processing the last page, otherwise stop and wait for
more text.  `fuel` bounds the recursion; every punctuation-found step
removes at least one character, so fuel = buffer length + 1 (supplied by
`chunkBuffer`) never runs out and the fuel-0 arm is unreachable there. -/
def chunkBufferFuel (cl : Nat) (cleaner : List Char → List Char) (pageNum : Nat)
    (isLast : Bool) : Nat → List Char → List Chunk × List Char
  | 0, buf => ([], buf)
  | fuel + 1, buf =>
    if cl ≤ buf.length then
      match findPunctIdx buf (cl - 1) with
      | some idx =>
        let pr := chunkBufferFuel cl cleaner pageNum isLast fuel (buf.drop (idx + 1))
        ((mkChunk cleaner pageNum (buf.take (idx + 1))).toList ++ pr.1, pr.2)
      | none =>
        if isLast then ((mkChunk cleaner pageNum buf).toList, []) else ([], buf)
    else ([], buf)

/-- The inner chunking loop at its natural fuel. -/
def chunkBuffer (cl : Nat) (cleaner : List Char → List Char) (pageNum : Nat)
    (isLast : Bool) (buf : List Char) : List Chunk × List Char :=
  chunkBufferFuel cl cleaner pageNum isLast (buf.length + 1) buf

/-- The page loop of pdf_utils.py lines 127-201.  A page is given as
`some text` when `load_page` / `get_text` succeed and as `none` when they
raise: the except branch of lines 198-201 logs the error, still advances
the page cursor, keeps the buffer, and continues.  The final list entry is
the page at `end_page_0_indexed`, whose inner loop runs with the
end-of-document flush enabled; a trailing buffer shorter than `cl`
survives the inner loop untouched and is discarded when the page loop
ends.  `pageIdx` is the 0-based `current_page_idx`. -/
def chunkPages (cl : Nat) (cleaner : List Char → List Char) :
    Nat → List Char → List (Option (List Char)) → List Chunk
  | _, _, [] => []
  | pageIdx, buf, [page] =>
    match page with
    | none => []
    | some t => (chunkBuffer cl cleaner (pageIdx + 1) true (buf ++ applyDigitMap t)).1
  | pageIdx, buf, page :: rest =>
    match page with
    | none => chunkPages cl cleaner (pageIdx + 1) buf rest
    | some t =>
      let pr := chunkBuffer cl cleaner (pageIdx + 1) false (buf ++ applyDigitMap t)
      pr.1 ++ chunkPages cl cleaner (pageIdx + 1) pr.2 rest

/-- extract_text_chunks_from_range of pdf_utils.py lines 101-210, for a
run during which no cancellation is observable (see
`extract_text_chunks_with_bool_flag` for how the caller's flag actually
reaches this generator).  `startPage` is `start_page_0_indexed`; `pages`
lists the extraction outcomes of the pages from `startPage` to
`end_page_0_indexed` in order. -/
def extract_text_chunks_from_range (startPage cl : Nat)
    (cleaner : List Char → List Char) (pages : List (Option (List Char))) :
    List Chunk :=
  chunkPages cl cleaner startPage [] pages

/-- The generator as invoked from autoreader.py lines 715-721, which
passes `self.stop_reading_flag` — a plain bool (autoreader.py line 53) —
by value.  With snapshot `false`, both `is_set` checks of pdf_utils.py
lines 127 and 141 short-circuit and can never fire, so the run equals the
cancellation-free run whatever happens to the caller's attribute later.
With snapshot `true`, the first evaluation of the loop condition raises
AttributeError on `bool.is_set`, the handler of line 208 swallows it, and
nothing is emitted. -/
def extract_text_chunks_with_bool_flag (flag : Bool) (startPage cl : Nat)
    (cleaner : List Char → List Char) (pages : List (Option (List Char))) :
    List Chunk :=
  if flag then [] else extract_text_chunks_from_range startPage cl cleaner pages

/-- The page-number-independent content of a chunk. -/
def chunkContent (c : Chunk) : List Char × List Char × List Char :=
  (c.raw, c.text, c.tts)

/-- C1: the concatenation property fails on the code.  On a one-page
document whose text is "aaaa" (no punctuation, 4 characters) with
minChunkLength 50, the generator emits nothing at all, while the cleaned
whole-document text is the non-empty "aaaa": the end-of-document flush of
pdf_utils.py lines 174-191 runs only inside the `while len(text_buffer) >=
chunk_length` loop, so a final remainder shorter than minChunkLength is
silently discarded — contradicting the comment at lines 203-206 which
asserts the remaining buffer is handled. -/
theorem final_remainder_dropped :
    extract_text_chunks_from_range 0 50 clean_text_for_tts
      [some (List.replicate 4 'a')] = [] ∧
    clean_text_for_tts (applyDigitMap (List.replicate 4 'a')) =
      List.replicate 4 'a' := by
  decide

/-- C6: the cancellation checks of the chunk generator are inert in every
session.  autoreader.py line 720 passes `self.stop_reading_flag`, a plain
bool, by value; the snapshot at session start is `false`, and a bool can
never become set, so the generator loads every remaining page and emits
every chunk no matter when `stop_reading()` later sets the attribute —
here it still emits the page-2 chunk (its `page` field is 2, so the
second page was loaded).  Only the pipeline's own check at autoreader.py
line 723 stops consumption, one further chunk late. -/
theorem cancel_snapshot_inert :
    extract_text_chunks_with_bool_flag false 0 1 clean_text_for_tts
        [some ['甲', '。'], some ['乙', '。']] =
      extract_text_chunks_from_range 0 1 clean_text_for_tts
        [some ['甲', '。'], some ['乙', '。']] ∧
    (extract_text_chunks_with_bool_flag false 0 1 clean_text_for_tts
        [some ['甲', '。'], some ['乙', '。']]).map Chunk.page = [1, 2] := by
  decide

/-! ### tts_utils.py: module state, readiness, loading, synthesis -/

/-- The module-level TTS state of tts_utils.py lines 18-23.  `M`, `V`,
`R`, `T` are the payload types of the loaded model, the vocoder, the
preprocessed reference audio and the preprocessed reference text; the two
path fields cache the GUI inputs the current reference was built from. -/
structure TTSState (M V R T : Type) where
  F5TTS_model : Option M
  vocoder : Option V
  ref_audio_processed : Option R
  ref_text_processed : Option T
  current_ref_audio_path : List Char
  current_ref_text_from_gui : List Char

/-- is_tts_ready of tts_utils.py lines 95-96. -/
def is_tts_ready {M V R T : Type} (s : TTSState M V R T) : Bool :=
  s.F5TTS_model.isSome && s.vocoder.isSome && s.ref_audio_processed.isSome

/-- Outcome-indexed model of load_tts_resources (tts_utils.py lines
71-93).  `vocoder_result` and `model_result` are what the two internal
loaders return — `none` when they caught an exception and returned None
(lines 53-69); `preprocess_result` is what `preprocess_ref_audio_text`
yields for the given GUI pair, `none` when it raises.  The returned pair
is the new module state together with the function's boolean result. -/
def load_tts_resources {M V R T : Type} (s : TTSState M V R T)
    (vocoder_result : Option V) (model_result : Option M)
    (ref_audio_path_gui ref_text_gui : List Char)
    (preprocess_result : Option (R × T)) : TTSState M V R T × Bool :=
  let s1 := { s with vocoder := vocoder_result, F5TTS_model := model_result }
  if vocoder_result.isNone || model_result.isNone then (s1, false)
  else if decide (s1.current_ref_audio_path ≠ ref_audio_path_gui) ||
          decide (s1.current_ref_text_from_gui ≠ ref_text_gui) ||
          s1.ref_audio_processed.isNone then
    match preprocess_result with
    | some rr =>
      let s2 := { s1 with ref_audio_processed := some rr.1,
                          ref_text_processed := some rr.2,
                          current_ref_audio_path := ref_audio_path_gui,
                          current_ref_text_from_gui := ref_text_gui }
      (s2, s2.F5TTS_model.isSome && s2.vocoder.isSome && s2.ref_audio_processed.isSome)
    | none =>
      ({ s1 with ref_audio_processed := none, ref_text_processed := none }, false)
  else (s1, s1.F5TTS_model.isSome && s1.vocoder.isSome && s1.ref_audio_processed.isSome)

/-- The failure modes of generate_audio_chunk: the RuntimeError of
tts_utils.py line 100, the ValueError of line 109, and a re-raised
inference exception (line 127). -/
inductive TTSFailure
  | notLoaded
  | refNotPreprocessed
  | inferenceFailed
deriving DecidableEq

/-- generate_audio_chunk of tts_utils.py lines 98-127.  `infer` stands for
`infer_process` applied to the cleaned text and the loaded resources; its
failure propagates because the handler of lines 125-127 re-raises.  The
numeric knobs (seed, speed, nfe steps) do not affect control flow and are
absorbed into `infer`.  The final match arm is unreachable: `is_tts_ready`
and the explicit reference check of lines 108-109 guard it. -/
def generate_audio_chunk {M V R T A : Type} (s : TTSState M V R T)
    (infer : R → T → List Char → M → V → Except Unit A)
    (text_for_tts : List Char) : Except TTSFailure A :=
  if is_tts_ready s = false then Except.error TTSFailure.notLoaded
  else if s.ref_audio_processed.isNone || s.ref_text_processed.isNone then
    Except.error TTSFailure.refNotPreprocessed
  else
    match s.ref_audio_processed, s.ref_text_processed, s.F5TTS_model, s.vocoder with
    | some ra, some rt, some m, some v =>
      match infer ra rt (clean_text_for_tts text_for_tts) m v with
      | Except.ok a => Except.ok a
      | Except.error _ => Except.error TTSFailure.inferenceFailed
    | _, _, _, _ => Except.error TTSFailure.notLoaded

/-- C7: generate_audio_chunk refuses to run when the resources are not
loaded — in that state it returns the RuntimeError of tts_utils.py line
100 and never a result — and is_tts_ready is true exactly when model,
vocoder and preprocessed reference are all present. -/
theorem generate_requires_ready {M V R T A : Type} (s : TTSState M V R T)
    (infer : R → T → List Char → M → V → Except Unit A) (txt : List Char) :
    (is_tts_ready s = false →
      generate_audio_chunk s infer txt = Except.error TTSFailure.notLoaded) ∧
    (is_tts_ready s = true ↔
      (s.F5TTS_model.isSome = true ∧ s.vocoder.isSome = true ∧
       s.ref_audio_processed.isSome = true)) := by
  constructor
  · intro h
    simp [generate_audio_chunk, h]
  · simp [is_tts_ready, and_assoc]

/-- Witness for C7 at a concrete empty state: nothing is loaded, and
generation reports the not-loaded error. -/
theorem generate_requires_ready_witness :
    generate_audio_chunk (M := Unit) (V := Unit) (R := Unit) (T := Unit)
        ⟨none, none, none, none, [], []⟩
        (fun _ _ _ _ _ => Except.ok ()) ['x'] =
      Except.error TTSFailure.notLoaded :=
  (generate_requires_ready ⟨none, none, none, none, [], []⟩
    (fun _ _ _ _ _ => Except.ok ()) ['x']).1 rfl

/-- C10: the boolean load_tts_resources returns always equals what
is_tts_ready would report immediately afterwards — a failed load (loader
returned None, or preprocessing raised) leaves the adapter not ready even
though some components were already replaced, and a successful load leaves
all three present. -/
theorem load_reports_ready {M V R T : Type} (s : TTSState M V R T)
    (vr : Option V) (mr : Option M) (pa pt : List Char) (pp : Option (R × T)) :
    (load_tts_resources s vr mr pa pt pp).2 =
      is_tts_ready (load_tts_resources s vr mr pa pt pp).1 := by
  rcases vr with _ | v <;> rcases mr with _ | m <;>
      simp [load_tts_resources, is_tts_ready]
  rcases pp with _ | rr <;> split <;> simp [is_tts_ready]

/-! ### stop handling: audio_player_utils.py and autoreader.py -/

/-- The AudioPlayer resource fields of audio_player_utils.py lines 8-17
that stop handling touches.  `S` and `P` are the pyaudio stream and
instance handle types. -/
structure PlayerRes (S P : Type) where
  stream : Option S
  pyaudio_instance : Option P
  is_paused : Bool
  is_stopped : Bool
deriving DecidableEq

/-- stop_current_audio of audio_player_utils.py lines 31-51: under the
lock it sets the stop flag, clears the pause flag, stops and closes the
stream (dropping the reference) and terminates the pyaudio instance;
every device exception on the way is caught and printed, so the coroutine
always completes. -/
def stop_current_audio {S P : Type} (p : PlayerRes S P) : PlayerRes S P :=
  { p with is_stopped := true, is_paused := false,
           stream := none, pyaudio_instance := none }

/-- The reader-side state that stop_reading (autoreader.py lines 772-793)
touches: the stop flag, the GUI pause flag and the optional audio player —
`none` in the Idle state, before any session created one (autoreader.py
lines 705-706).  Button captions and highlight clearing are GUI-only. -/
structure ReaderState (S P : Type) where
  stop_reading_flag : Bool
  is_reading_paused : Bool
  audio_player : Option (PlayerRes S P)
deriving DecidableEq

/-- stop_reading of autoreader.py lines 772-793: set the stop flag, clear
the pause flag, and — only when an audio player exists — run
stop_current_audio on it.  The `future.result(timeout=1.0)` call is
wrapped in try/except, so even a stop that times out returns normally. -/
def stop_reading {S P : Type} (a : ReaderState S P) : ReaderState S P :=
  { a with stop_reading_flag := true, is_reading_paused := false,
           audio_player := a.audio_player.map stop_current_audio }

/-- The player is inert: stopped, unpaused, stream and device handle
released. -/
def playerInert {S P : Type} (p : PlayerRes S P) : Bool :=
  p.is_stopped && !p.is_paused && p.stream.isNone && p.pyaudio_instance.isNone

/-- C9: stop is idempotent and total.  Repeating stop_reading changes
nothing; after one call the stop flag is set, the pause flag cleared, any
existing audio player is inert with the device released, and a call from
Idle (no player) stays in Idle.  Totality of the model reflects that every
exception path in stop_reading and stop_current_audio is caught. -/
theorem stop_reading_idempotent_inert {S P : Type} (a : ReaderState S P) :
    stop_reading (stop_reading a) = stop_reading a ∧
    (stop_reading a).stop_reading_flag = true ∧
    (stop_reading a).is_reading_paused = false ∧
    (stop_reading a).audio_player.all playerInert = true ∧
    (a.audio_player = none ↔ (stop_reading a).audio_player = none) := by
  rcases a with ⟨f, g, _ | p⟩ <;>
    simp [stop_reading, stop_current_audio, playerInert]

/-! ### The audio queue between synthesis and playback

autoreader.py line 56 creates `self.audio_queue = asyncio.Queue()` with no
maxsize: `put` appends at the back and never blocks.  Capacity 2 is only
enforced by the producer's poll at lines 732-735.  The model below is a
small-step system over the scheduler interleavings of
main_async_reader_loop (producer) and run_audio_player_loop (consumer);
queue entries are abbreviated to the serial number of the chunk they were
synthesized from (`nextId` counts them).
-/

/-- Producer position in main_async_reader_loop: `idle` at the
queue-capacity poll of autoreader.py line 732, or `generating` after the
poll passed and the run_in_executor synthesis of line 744 is in flight. -/
inductive ProdStage
  | idle
  | generating
deriving DecidableEq

/-- Consumer position in run_audio_player_loop: `free` before the
`audio_queue.get` of audio_player_utils.py line 111, or holding a dequeued
item, where the boolean records whether the highlight invocation of lines
125-131 has run yet. -/
inductive ConsStage
  | free
  | holding (u : Nat) (didHighlight : Bool)
deriving DecidableEq

/-- The joint state.  `is_paused`/`is_stopped` stand for the pause/stop
flags, which pause_resume_reading and stop_reading set on the GUI and the
player together; `played` and `highlighted` are the event histories, and
`enqueued` records every id the producer ever put, in order. -/
structure QueueSys where
  queue : List Nat
  is_paused : Bool
  is_stopped : Bool
  prod : ProdStage
  nextId : Nat
  cons : ConsStage
  played : List Nat
  highlighted : List Nat
  enqueued : List Nat
deriving DecidableEq

/-- Session start: empty queue, both loops at their tops. -/
def initQueueSys : QueueSys :=
  { queue := [], is_paused := false, is_stopped := false,
    prod := ProdStage.idle, nextId := 0, cons := ConsStage.free,
    played := [], highlighted := [], enqueued := [] }

/-- One scheduler step.
* `startGen`: the producer's poll of autoreader.py line 732 sees
  `qsize() < 2` with the stop flag clear, and line 744 starts synthesis —
  an await during which the other coroutines run.
* `finishGen`: synthesis returns and line 752 awaits
  `audio_queue.put`, which appends at the back (the queue is unbounded).
* `deq`: the consumer's `wait_for(audio_queue.get())` of
  audio_player_utils.py line 111 completes with the head item (the
  pause/stop flags may change between this completion and the re-check,
  which is why no pause guard appears here).
* `highlight`: the `QMetaObject.invokeMethod` of lines 125-131 queues the
  highlight for the held chunk.
* `playUnit`: the re-check of lines 134-137 sees neither pause nor stop
  and line 140 plays the held unit.
* `putBack`: the re-check sees pause or stop and line 136 puts the held
  item back via `audio_queue.put` — at the back of the queue.
* `pauseStep`/`resumeStep`: pause_resume_reading (autoreader.py lines
  795-811) with the player's pause/resume; resume only acts when not
  stopped (audio_player_utils.py line 175).
* `stopStep`: stop_reading / stop_current_audio set the stop flag and
  clear the pause flag. -/
inductive QStep : QueueSys → QueueSys → Prop
  | startGen (s : QueueSys) (hp : s.prod = ProdStage.idle)
      (hs : s.is_stopped = false) (hroom : s.queue.length < 2) :
      QStep s { s with prod := ProdStage.generating }
  | finishGen (s : QueueSys) (hp : s.prod = ProdStage.generating) :
      QStep s { s with prod := ProdStage.idle,
                       queue := s.queue ++ [s.nextId],
                       nextId := s.nextId + 1,
                       enqueued := s.enqueued ++ [s.nextId] }
  | deq (s : QueueSys) (u : Nat) (rest : List Nat)
      (hc : s.cons = ConsStage.free) (hq : s.queue = u :: rest) :
      QStep s { s with queue := rest, cons := ConsStage.holding u false }
  | highlight (s : QueueSys) (u : Nat)
      (hc : s.cons = ConsStage.holding u false) :
      QStep s { s with cons := ConsStage.holding u true,
                       highlighted := s.highlighted ++ [u] }
  | playUnit (s : QueueSys) (u : Nat)
      (hc : s.cons = ConsStage.holding u true)
      (hp : s.is_paused = false) (hs : s.is_stopped = false) :
      QStep s { s with cons := ConsStage.free, played := s.played ++ [u] }
  | putBack (s : QueueSys) (u : Nat)
      (hc : s.cons = ConsStage.holding u true)
      (hps : s.is_paused = true ∨ s.is_stopped = true) :
      QStep s { s with cons := ConsStage.free, queue := s.queue ++ [u] }
  | pauseStep (s : QueueSys) : QStep s { s with is_paused := true }
  | resumeStep (s : QueueSys) (hs : s.is_stopped = false) :
      QStep s { s with is_paused := false }
  | stopStep (s : QueueSys) :
      QStep s { s with is_stopped := true, is_paused := false }

/-- States reachable from session start. -/
inductive QReach : QueueSys → Prop
  | init : QReach initQueueSys
  | step (s t : QueueSys) (h : QReach s) (hs : QStep s t) : QReach t

/-- Number of units the consumer holds outside the queue. -/
def holdCount : ConsStage → Nat
  | ConsStage.free => 0
  | ConsStage.holding _ _ => 1

/-- The held unit as a list. -/
def holdList : ConsStage → List Nat
  | ConsStage.free => []
  | ConsStage.holding u _ => [u]

/-- Number of units inside the in-flight synthesis. -/
def genCount : ProdStage → Nat
  | ProdStage.idle => 0
  | ProdStage.generating => 1

theorem holdCount_le_one (c : ConsStage) : holdCount c ≤ 1 := by
  cases c <;> simp [holdCount]

/-- The inductive session invariant: (1) queue plus held unit plus
in-flight synthesis never exceed 3 units; (2) conservation — every
enqueued unit is in the queue, in the consumer's hand, or played; (3)
every played unit was highlighted; (4) a held unit whose highlight ran is
in the highlight history. -/
theorem queue_invariant (s : QueueSys) (h : QReach s) :
    (s.queue.length + holdCount s.cons + genCount s.prod ≤ 3) ∧
    (∀ n, s.queue.count n + (holdList s.cons).count n + s.played.count n
        = s.enqueued.count n) ∧
    (∀ u, u ∈ s.played → u ∈ s.highlighted) ∧
    (∀ u b, s.cons = ConsStage.holding u b → b = true → u ∈ s.highlighted) := by
  induction h with
  | init =>
    exact ⟨by decide, fun n => by simp [initQueueSys, holdList],
      fun u hu => by simp [initQueueSys] at hu,
      fun u b hc => by simp [initQueueSys] at hc⟩
  | step s t hr hst ih =>
    obtain ⟨ih1, ih2, ih3, ih4⟩ := ih
    cases hst with
    | startGen hp hs hroom =>
      refine ⟨?_, ih2, ih3, ih4⟩
      have := holdCount_le_one s.cons
      dsimp only [genCount]
      omega
    | finishGen hp =>
      rw [hp] at ih1
      refine ⟨?_, ?_, ih3, ih4⟩
      · dsimp only [genCount] at ih1 ⊢
        simp only [List.length_append, List.length_cons, List.length_nil]
        omega
      · intro n
        have := ih2 n
        simp only [List.count_append]
        omega
    | deq u rest hc hq =>
      rw [hc] at ih1 ih2
      rw [hq] at ih1 ih2
      refine ⟨?_, ?_, ih3, ?_⟩
      · simp only [holdCount, List.length_cons] at ih1 ⊢
        omega
      · intro n
        have := ih2 n
        simp only [holdList, List.count_cons, List.count_nil] at this ⊢
        omega
      · intro v b hvb hb
        cases hvb
        cases hb
    | highlight u hc =>
      rw [hc] at ih1 ih2
      refine ⟨?_, ?_, ?_, ?_⟩
      · simpa only [holdCount] using ih1
      · intro n
        have := ih2 n
        simpa only [holdList] using this
      · exact fun v hv => List.mem_append_left _ (ih3 v hv)
      · intro v b hvb _
        cases hvb
        exact List.mem_append_right _ (List.mem_singleton_self u)
    | playUnit u hc hpp hss =>
      rw [hc] at ih1 ih2
      refine ⟨?_, ?_, ?_, ?_⟩
      · simp only [holdCount] at ih1 ⊢
        omega
      · intro n
        have := ih2 n
        simp only [holdList, List.count_cons, List.count_nil,
          List.count_append] at this ⊢
        omega
      · intro v hv
        rcases List.mem_append.mp hv with hv | hv
        · exact ih3 v hv
        · rcases List.mem_singleton.mp hv with rfl
          exact ih4 v true hc rfl
      · intro v b hvb _
        cases hvb
    | putBack u hc hps =>
      rw [hc] at ih1 ih2
      refine ⟨?_, ?_, ih3, ?_⟩
      · simp only [holdCount, List.length_append, List.length_cons,
          List.length_nil] at ih1 ⊢
        omega
      · intro n
        have := ih2 n
        simp only [holdList, List.count_cons, List.count_nil,
          List.count_append] at this ⊢
        omega
      · intro v b hvb _
        cases hvb
    | pauseStep => exact ⟨ih1, ih2, ih3, ih4⟩
    | resumeStep hs => exact ⟨ih1, ih2, ih3, ih4⟩
    | stopStep => exact ⟨ih1, ih2, ih3, ih4⟩

/-- C3 (amended): in every reachable state of the synthesis/playback
session the audio queue holds at most 3 units = capacity + 1.  The claimed
bound 2 fails (see audio_queue_capacity_exceeded): the queue object is
unbounded, and the producer's capacity check at autoreader.py line 732 is
separated from its put at line 752 by the synthesis await, during which
the consumer may put a dequeued unit back; what the interleavings do
preserve is queue + held unit + in-flight synthesis ≤ 3. -/
theorem audio_queue_length_le_three (s : QueueSys) (h : QReach s) :
    s.queue.length ≤ 3 := by
  have h1 := (queue_invariant s h).1
  omega

/-- Witness for C3 (amended) at the session start state. -/
theorem audio_queue_length_le_three_witness : initQueueSys.queue.length ≤ 3 :=
  audio_queue_length_le_three initQueueSys QReach.init

/-- End state of the capacity-overflow interleaving: units 0 and 1
enqueued and unit 2 synthesized while the consumer held unit 0 across a
pause, so after the put-back and the producer's put the queue holds
three units. -/
def overflowState : QueueSys :=
  { queue := [1, 0, 2], is_paused := true, is_stopped := false,
    prod := ProdStage.idle, nextId := 3, cons := ConsStage.free,
    played := [], highlighted := [0], enqueued := [0, 1, 2] }

/-- C3 counterexample: a schedulable interleaving drives the queue to size
3 > 2.  Producer fills the queue to [0, 1]; the consumer dequeues 0
(queue [1]); the producer's poll sees qsize 1 < 2 and starts synthesizing
unit 2; pause arrives; the consumer's re-check sees it and puts 0 back at
the back (queue [1, 0]); synthesis finishes and its put makes the queue
[1, 0, 2]. -/
theorem audio_queue_capacity_exceeded :
    QReach overflowState ∧ 2 < overflowState.queue.length := by
  refine ⟨?_, by decide⟩
  have h0 : QReach initQueueSys := QReach.init
  have h1 : QReach
      { queue := [], is_paused := false, is_stopped := false,
        prod := ProdStage.generating, nextId := 0, cons := ConsStage.free,
        played := [], highlighted := [], enqueued := [] } :=
    QReach.step _ _ h0 (QStep.startGen _ rfl rfl (by decide))
  have h2 : QReach
      { queue := [0], is_paused := false, is_stopped := false,
        prod := ProdStage.idle, nextId := 1, cons := ConsStage.free,
        played := [], highlighted := [], enqueued := [0] } :=
    QReach.step _ _ h1 (QStep.finishGen _ rfl)
  have h3 : QReach
      { queue := [0], is_paused := false, is_stopped := false,
        prod := ProdStage.generating, nextId := 1, cons := ConsStage.free,
        played := [], highlighted := [], enqueued := [0] } :=
    QReach.step _ _ h2 (QStep.startGen _ rfl rfl (by decide))
  have h4 : QReach
      { queue := [0, 1], is_paused := false, is_stopped := false,
        prod := ProdStage.idle, nextId := 2, cons := ConsStage.free,
        played := [], highlighted := [], enqueued := [0, 1] } :=
    QReach.step _ _ h3 (QStep.finishGen _ rfl)
  have h5 : QReach
      { queue := [1], is_paused := false, is_stopped := false,
        prod := ProdStage.idle, nextId := 2, cons := ConsStage.holding 0 false,
        played := [], highlighted := [], enqueued := [0, 1] } :=
    QReach.step _ _ h4 (QStep.deq _ 0 [1] rfl rfl)
  have h6 : QReach
      { queue := [1], is_paused := false, is_stopped := false,
        prod := ProdStage.generating, nextId := 2, cons := ConsStage.holding 0 false,
        played := [], highlighted := [], enqueued := [0, 1] } :=
    QReach.step _ _ h5 (QStep.startGen _ rfl rfl (by decide))
  have h7 : QReach
      { queue := [1], is_paused := true, is_stopped := false,
        prod := ProdStage.generating, nextId := 2, cons := ConsStage.holding 0 false,
        played := [], highlighted := [], enqueued := [0, 1] } :=
    QReach.step _ _ h6 (QStep.pauseStep _)
  have h8 : QReach
      { queue := [1], is_paused := true, is_stopped := false,
        prod := ProdStage.generating, nextId := 2, cons := ConsStage.holding 0 true,
        played := [], highlighted := [0], enqueued := [0, 1] } :=
    QReach.step _ _ h7 (QStep.highlight _ 0 rfl)
  have h9 : QReach
      { queue := [1, 0], is_paused := true, is_stopped := false,
        prod := ProdStage.generating, nextId := 2, cons := ConsStage.free,
        played := [], highlighted := [0], enqueued := [0, 1] } :=
    QReach.step _ _ h8 (QStep.putBack _ 0 rfl (Or.inl rfl))
  exact QReach.step _ _ h9 (QStep.finishGen _ rfl)

/-- C2 (amended): what the playback loop guarantees is conservation and
highlight-before-play, not order.  In every reachable state, every
enqueued unit is exactly accounted for by the queue, the consumer's hand
and the play history (a unit put back on pause/stop is never dropped), and
every played unit had its highlight emitted before playing. -/
theorem playback_conservation_and_highlight (s : QueueSys) (h : QReach s) :
    (∀ n, s.queue.count n + (holdList s.cons).count n + s.played.count n
        = s.enqueued.count n) ∧
    (∀ u, u ∈ s.played → u ∈ s.highlighted) :=
  ⟨(queue_invariant s h).2.1, (queue_invariant s h).2.2.1⟩

/-- Witness for C2 (amended) at the session start state, instantiated at
unit 0. -/
theorem playback_conservation_and_highlight_witness :
    initQueueSys.queue.count 0 + (holdList initQueueSys.cons).count 0 +
      initQueueSys.played.count 0 = initQueueSys.enqueued.count 0 :=
  (playback_conservation_and_highlight initQueueSys QReach.init).1 0

/-- End state of the reordering interleaving: unit 0 was dequeued and
highlighted, a pause made line 136 put it back at the BACK of the queue
(behind unit 1), and after resume unit 1 was highlighted and played while
0 waited; finally 0 is dequeued and highlighted a second time. -/
def reorderState : QueueSys :=
  { queue := [], is_paused := false, is_stopped := false,
    prod := ProdStage.idle, nextId := 2, cons := ConsStage.holding 0 true,
    played := [1], highlighted := [0, 1, 0], enqueued := [0, 1] }

/-- C2 counterexample: the put-back of audio_player_utils.py line 136 uses
`audio_queue.put`, which appends at the back, not the front.  In the
reachable state below, units were produced in order 0, 1, yet unit 1 is
played while the earlier unit 0 is still unplayed (so the next unit played
after a pause is NOT the earliest unplayed unit), and unit 0's second
highlight comes after unit 1's highlight. -/
theorem playback_reordered :
    QReach reorderState ∧ reorderState.enqueued = [0, 1] ∧
    reorderState.played = [1] ∧ 0 ∉ reorderState.played ∧
    reorderState.highlighted = [0, 1, 0] := by
  refine ⟨?_, by decide, by decide, by decide, by decide⟩
  have h0 : QReach initQueueSys := QReach.init
  have h1 : QReach
      { queue := [], is_paused := false, is_stopped := false,
        prod := ProdStage.generating, nextId := 0, cons := ConsStage.free,
        played := [], highlighted := [], enqueued := [] } :=
    QReach.step _ _ h0 (QStep.startGen _ rfl rfl (by decide))
  have h2 : QReach
      { queue := [0], is_paused := false, is_stopped := false,
        prod := ProdStage.idle, nextId := 1, cons := ConsStage.free,
        played := [], highlighted := [], enqueued := [0] } :=
    QReach.step _ _ h1 (QStep.finishGen _ rfl)
  have h3 : QReach
      { queue := [0], is_paused := false, is_stopped := false,
        prod := ProdStage.generating, nextId := 1, cons := ConsStage.free,
        played := [], highlighted := [], enqueued := [0] } :=
    QReach.step _ _ h2 (QStep.startGen _ rfl rfl (by decide))
  have h4 : QReach
      { queue := [0, 1], is_paused := false, is_stopped := false,
        prod := ProdStage.idle, nextId := 2, cons := ConsStage.free,
        played := [], highlighted := [], enqueued := [0, 1] } :=
    QReach.step _ _ h3 (QStep.finishGen _ rfl)
  have h5 : QReach
      { queue := [1], is_paused := false, is_stopped := false,
        prod := ProdStage.idle, nextId := 2, cons := ConsStage.holding 0 false,
        played := [], highlighted := [], enqueued := [0, 1] } :=
    QReach.step _ _ h4 (QStep.deq _ 0 [1] rfl rfl)
  have h6 : QReach
      { queue := [1], is_paused := true, is_stopped := false,
        prod := ProdStage.idle, nextId := 2, cons := ConsStage.holding 0 false,
        played := [], highlighted := [], enqueued := [0, 1] } :=
    QReach.step _ _ h5 (QStep.pauseStep _)
  have h7 : QReach
      { queue := [1], is_paused := true, is_stopped := false,
        prod := ProdStage.idle, nextId := 2, cons := ConsStage.holding 0 true,
        played := [], highlighted := [0], enqueued := [0, 1] } :=
    QReach.step _ _ h6 (QStep.highlight _ 0 rfl)
  have h8 : QReach
      { queue := [1, 0], is_paused := true, is_stopped := false,
        prod := ProdStage.idle, nextId := 2, cons := ConsStage.free,
        played := [], highlighted := [0], enqueued := [0, 1] } :=
    QReach.step _ _ h7 (QStep.putBack _ 0 rfl (Or.inl rfl))
  have h9 : QReach
      { queue := [1, 0], is_paused := false, is_stopped := false,
        prod := ProdStage.idle, nextId := 2, cons := ConsStage.free,
        played := [], highlighted := [0], enqueued := [0, 1] } :=
    QReach.step _ _ h8 (QStep.resumeStep _ rfl)
  have h10 : QReach
      { queue := [0], is_paused := false, is_stopped := false,
        prod := ProdStage.idle, nextId := 2, cons := ConsStage.holding 1 false,
        played := [], highlighted := [0], enqueued := [0, 1] } :=
    QReach.step _ _ h9 (QStep.deq _ 1 [0] rfl rfl)
  have h11 : QReach
      { queue := [0], is_paused := false, is_stopped := false,
        prod := ProdStage.idle, nextId := 2, cons := ConsStage.holding 1 true,
        played := [], highlighted := [0, 1], enqueued := [0, 1] } :=
    QReach.step _ _ h10 (QStep.highlight _ 1 rfl)
  have h12 : QReach
      { queue := [0], is_paused := false, is_stopped := false,
        prod := ProdStage.idle, nextId := 2, cons := ConsStage.free,
        played := [1], highlighted := [0, 1], enqueued := [0, 1] } :=
    QReach.step _ _ h11 (QStep.playUnit _ 1 rfl rfl rfl)
  have h13 : QReach
      { queue := [], is_paused := false, is_stopped := false,
        prod := ProdStage.idle, nextId := 2, cons := ConsStage.holding 0 false,
        played := [1], highlighted := [0, 1], enqueued := [0, 1] } :=
    QReach.step _ _ h12 (QStep.deq _ 0 [] rfl rfl)
  exact QReach.step _ _ h13 (QStep.highlight _ 0 rfl)

/-! ### Digit localization (C4) -/

/-- Folding the replacement table over a list distributes to a per-character
fold: str.replace with single-character patterns acts pointwise. -/
theorem foldl_replaceChar_cons (ps : List (Char × Char)) (c : Char) (t : List Char) :
    ps.foldl (fun l p => replaceChar p.1 p.2 l) (c :: t) =
      (ps.foldl (fun x p => if x = p.1 then p.2 else x) c) ::
        ps.foldl (fun l p => replaceChar p.1 p.2 l) t := by
  induction ps generalizing c t with
  | nil => rfl
  | cons p ps ih =>
    simp only [List.foldl_cons, replaceChar, List.map_cons]
    exact ih _ _

/-- The per-character fold over the table is the table lookup. -/
theorem charDigitFold_eq (c : Char) :
    arabic_to_chinese.foldl (fun x p => if x = p.1 then p.2 else x) c =
      digitToChinese c := by
  by_cases h0 : c = '0'
  · subst h0; decide
  by_cases h1 : c = '1'
  · subst h1; decide
  by_cases h2 : c = '2'
  · subst h2; decide
  by_cases h3 : c = '3'
  · subst h3; decide
  by_cases h4 : c = '4'
  · subst h4; decide
  by_cases h5 : c = '5'
  · subst h5; decide
  by_cases h6 : c = '6'
  · subst h6; decide
  by_cases h7 : c = '7'
  · subst h7; decide
  by_cases h8 : c = '8'
  · subst h8; decide
  by_cases h9 : c = '9'
  · subst h9; decide
  simp [arabic_to_chinese, digitToChinese, h0, h1, h2, h3, h4, h5, h6, h7, h8, h9]

/-- The sequential replacement loop equals one character-wise map: each
source character is substituted exactly once. -/
theorem applyDigitMap_eq_map (s : List Char) :
    applyDigitMap s = s.map digitToChinese := by
  induction s with
  | nil => rfl
  | cons c t ih =>
    rw [List.map_cons, ← charDigitFold_eq c, ← ih]
    exact foldl_replaceChar_cons arabic_to_chinese c t

/-- The localized image of any character is never an ASCII digit. -/
theorem digitToChinese_not_digit (c : Char) :
    isArabicDigit (digitToChinese c) = false := by
  by_cases h0 : c = '0'
  · subst h0; decide
  by_cases h1 : c = '1'
  · subst h1; decide
  by_cases h2 : c = '2'
  · subst h2; decide
  by_cases h3 : c = '3'
  · subst h3; decide
  by_cases h4 : c = '4'
  · subst h4; decide
  by_cases h5 : c = '5'
  · subst h5; decide
  by_cases h6 : c = '6'
  · subst h6; decide
  by_cases h7 : c = '7'
  · subst h7; decide
  by_cases h8 : c = '8'
  · subst h8; decide
  by_cases h9 : c = '9'
  · subst h9; decide
  simp [digitToChinese, isArabicDigit, h0, h1, h2, h3, h4, h5, h6, h7, h8, h9]

/-- A text is free of ASCII digits. -/
def noDigits (l : List Char) : Prop := ∀ c ∈ l, isArabicDigit c = false

theorem noDigits_applyDigitMap (s : List Char) : noDigits (applyDigitMap s) := by
  rw [applyDigitMap_eq_map]
  intro c hc
  obtain ⟨a, -, rfl⟩ := List.mem_map.mp hc
  exact digitToChinese_not_digit a

theorem noDigits_append {l₁ l₂ : List Char} (h₁ : noDigits l₁) (h₂ : noDigits l₂) :
    noDigits (l₁ ++ l₂) := by
  intro c hc
  rcases List.mem_append.mp hc with hc | hc
  · exact h₁ c hc
  · exact h₂ c hc

theorem noDigits_take {l : List Char} (n : Nat) (h : noDigits l) :
    noDigits (l.take n) :=
  fun c hc => h c (List.take_subset n l hc)

theorem noDigits_drop {l : List Char} (n : Nat) (h : noDigits l) :
    noDigits (l.drop n) :=
  fun c hc => h c (List.drop_subset n l hc)

theorem mem_stripChars {c : Char} {l : List Char} (h : c ∈ stripChars l) : c ∈ l := by
  unfold stripChars at h
  rw [List.mem_reverse] at h
  have h1 := (List.dropWhile_sublist (l := (l.dropWhile isWs).reverse) isWs).subset h
  rw [List.mem_reverse] at h1
  exact (List.dropWhile_sublist isWs).subset h1

theorem noDigits_stripChars {l : List Char} (h : noDigits l) :
    noDigits (stripChars l) :=
  fun c hc => h c (mem_stripChars hc)

theorem mem_collapseWsAux {c : Char} :
    ∀ (b : Bool) (l : List Char), c ∈ collapseWsAux b l → c = ' ' ∨ c ∈ l := by
  intro b l
  induction l generalizing b with
  | nil => intro h; cases h
  | cons d t ih =>
    intro h
    simp only [collapseWsAux] at h
    split at h
    · split at h
      · rcases ih _ h with h | h
        · exact Or.inl h
        · exact Or.inr (List.mem_cons_of_mem d h)
      · rcases List.mem_cons.mp h with rfl | h
        · exact Or.inl rfl
        · rcases ih _ h with h | h
          · exact Or.inl h
          · exact Or.inr (List.mem_cons_of_mem d h)
    · rcases List.mem_cons.mp h with rfl | h
      · exact Or.inr (List.mem_cons_self _ _)
      · rcases ih _ h with h | h
        · exact Or.inl h
        · exact Or.inr (List.mem_cons_of_mem d h)

theorem noDigits_clean_text_for_tts {l : List Char} (h : noDigits l) :
    noDigits (clean_text_for_tts l) := by
  intro c hc
  have hc1 := mem_stripChars hc
  rcases mem_collapseWsAux false l hc1 with rfl | hc2
  · decide
  · exact h c hc2

/-- Membership in an emitted chunk option determines the chunk fields. -/
theorem mem_mkChunk {cleaner : List Char → List Char} {pg : Nat}
    {raw : List Char} {ch : Chunk} (h : ch ∈ (mkChunk cleaner pg raw).toList) :
    ch.raw = raw ∧ ch.text = stripChars raw ∧ ch.tts = cleaner (stripChars raw) := by
  unfold mkChunk at h
  split at h
  · cases h
  · simp only [Option.toList_some, List.mem_singleton] at h
    subst h
    exact ⟨rfl, rfl, rfl⟩

/-- Unfolding lemma: punctuation found at or after the threshold. -/
theorem chunkBufferFuel_succ_some {cl pg fuel idx : Nat}
    {cleaner : List Char → List Char} {il : Bool} {buf : List Char}
    (hlen : cl ≤ buf.length) (hidx : findPunctIdx buf (cl - 1) = some idx) :
    chunkBufferFuel cl cleaner pg il (fuel + 1) buf =
      ((mkChunk cleaner pg (buf.take (idx + 1))).toList ++
         (chunkBufferFuel cl cleaner pg il fuel (buf.drop (idx + 1))).1,
       (chunkBufferFuel cl cleaner pg il fuel (buf.drop (idx + 1))).2) := by
  simp [chunkBufferFuel, hlen, hidx]

/-- Unfolding lemma: no punctuation, last page — flush. -/
theorem chunkBufferFuel_succ_none_last {cl pg fuel : Nat}
    {cleaner : List Char → List Char} {buf : List Char}
    (hlen : cl ≤ buf.length) (hidx : findPunctIdx buf (cl - 1) = none) :
    chunkBufferFuel cl cleaner pg true (fuel + 1) buf =
      ((mkChunk cleaner pg buf).toList, []) := by
  simp [chunkBufferFuel, hlen, hidx]

/-- Unfolding lemma: no punctuation, more pages to come — wait for text. -/
theorem chunkBufferFuel_succ_none_mid {cl pg fuel : Nat}
    {cleaner : List Char → List Char} {buf : List Char}
    (hlen : cl ≤ buf.length) (hidx : findPunctIdx buf (cl - 1) = none) :
    chunkBufferFuel cl cleaner pg false (fuel + 1) buf = ([], buf) := by
  simp [chunkBufferFuel, hlen, hidx]

/-- Unfolding lemma: buffer below the chunk length — loop does not run. -/
theorem chunkBufferFuel_succ_short {cl pg fuel : Nat}
    {cleaner : List Char → List Char} {il : Bool} {buf : List Char}
    (hlen : ¬ cl ≤ buf.length) :
    chunkBufferFuel cl cleaner pg il (fuel + 1) buf = ([], buf) := by
  simp [chunkBufferFuel, hlen]

/-- Digit freedom is preserved by the inner chunking loop: from a
digit-free buffer, every emitted chunk and the leftover buffer are
digit-free. -/
theorem noDigits_chunkBufferFuel (cl : Nat) (cleaner : List Char → List Char)
    (hcl : ∀ l, noDigits l → noDigits (cleaner l)) (pg : Nat) (il : Bool) :
    ∀ (fuel : Nat) (buf : List Char), noDigits buf →
      (∀ ch ∈ (chunkBufferFuel cl cleaner pg il fuel buf).1,
        noDigits ch.raw ∧ noDigits ch.text ∧ noDigits ch.tts) ∧
      noDigits (chunkBufferFuel cl cleaner pg il fuel buf).2 := by
  intro fuel
  induction fuel with
  | zero =>
    intro buf hb
    exact ⟨fun ch hch => absurd hch (by simp [chunkBufferFuel]),
      by simpa [chunkBufferFuel] using hb⟩
  | succ fuel ih =>
    intro buf hb
    by_cases hlen : cl ≤ buf.length
    · cases hidx : findPunctIdx buf (cl - 1) with
      | some idx =>
        have hdrop := ih (buf.drop (idx + 1)) (noDigits_drop _ hb)
        rw [chunkBufferFuel_succ_some hlen hidx]
        constructor
        · intro ch hch
          rcases List.mem_append.mp hch with hch | hch
          · obtain ⟨h1, h2, h3⟩ := mem_mkChunk hch
            have htake := noDigits_take (idx + 1) hb
            refine ⟨h1 ▸ htake, h2 ▸ noDigits_stripChars htake, ?_⟩
            exact h3 ▸ hcl _ (noDigits_stripChars htake)
          · exact hdrop.1 ch hch
        · exact hdrop.2
      | none =>
        cases il with
        | true =>
          rw [chunkBufferFuel_succ_none_last hlen hidx]
          refine ⟨?_, fun c hc => absurd hc (by simp)⟩
          intro ch hch
          obtain ⟨h1, h2, h3⟩ := mem_mkChunk hch
          exact ⟨h1 ▸ hb, h2 ▸ noDigits_stripChars hb,
            h3 ▸ hcl _ (noDigits_stripChars hb)⟩
        | false =>
          rw [chunkBufferFuel_succ_none_mid hlen hidx]
          exact ⟨fun ch hch => absurd hch (by simp), hb⟩
    · rw [chunkBufferFuel_succ_short hlen]
      exact ⟨fun ch hch => absurd hch (by simp), hb⟩

/-- Digit freedom is preserved by the page loop. -/
theorem noDigits_chunkPages (cl : Nat) (cleaner : List Char → List Char)
    (hcl : ∀ l, noDigits l → noDigits (cleaner l)) :
    ∀ (pages : List (Option (List Char))) (pageIdx : Nat) (buf : List Char),
      noDigits buf →
      ∀ ch ∈ chunkPages cl cleaner pageIdx buf pages,
        noDigits ch.raw ∧ noDigits ch.text ∧ noDigits ch.tts := by
  intro pages
  induction pages with
  | nil => intro pageIdx buf hb ch hch; cases hch
  | cons p rest ih =>
    intro pageIdx buf hb ch hch
    cases rest with
    | nil =>
      cases p with
      | none => cases hch
      | some t =>
        simp only [chunkPages] at hch
        have hb2 : noDigits (buf ++ applyDigitMap t) :=
          noDigits_append hb (noDigits_applyDigitMap t)
        exact (noDigits_chunkBufferFuel cl cleaner hcl (pageIdx + 1) true
          ((buf ++ applyDigitMap t).length + 1) _ hb2).1 ch hch
    | cons q rs =>
      cases p with
      | none =>
        simp only [chunkPages] at hch
        exact ih (pageIdx + 1) buf hb ch hch
      | some t =>
        simp only [chunkPages] at hch
        have hb2 : noDigits (buf ++ applyDigitMap t) :=
          noDigits_append hb (noDigits_applyDigitMap t)
        have hcb := noDigits_chunkBufferFuel cl cleaner hcl (pageIdx + 1) false
          ((buf ++ applyDigitMap t).length + 1) _ hb2
        rcases List.mem_append.mp hch with hch | hch
        · exact hcb.1 ch hch
        · exact ih (pageIdx + 1) _ hcb.2 ch hch

/-- C4: digit localization.  The sequential per-digit replacement loop of
pdf_utils.py lines 134-135 acts exactly once per source character — it
equals a single character-wise map, hence preserves length character for
character — and every chunk the generator emits (with the pipeline's
cleaner) has text and ttsText containing zero ASCII digits, the localized
words standing in their place. -/
theorem digit_localization :
    (∀ s : List Char, applyDigitMap s = s.map digitToChinese ∧
      (applyDigitMap s).length = s.length) ∧
    (∀ (startPage cl : Nat) (pages : List (Option (List Char))) (ch : Chunk),
      ch ∈ extract_text_chunks_from_range startPage cl clean_text_for_tts pages →
      noDigits ch.text ∧ noDigits ch.tts) := by
  constructor
  · intro s
    refine ⟨applyDigitMap_eq_map s, ?_⟩
    rw [applyDigitMap_eq_map s, List.length_map]
  · intro startPage cl pages ch hch
    have h := noDigits_chunkPages cl clean_text_for_tts
      (fun l hl => noDigits_clean_text_for_tts hl) pages startPage [] 
      (fun c hc => absurd hc (by simp)) ch hch
    exact ⟨h.2.1, h.2.2⟩

/-- Witness for C4 on the one-page document "1。" with minChunkLength 1:
the single emitted chunk is 一。 and both its text and ttsText are
digit-free. -/
theorem digit_localization_witness :
    (⟨['一', '。'], ['一', '。'], ['一', '。'], 1⟩ : Chunk) ∈
      extract_text_chunks_from_range 0 1 clean_text_for_tts [some ['1', '。']] ∧
    noDigits (Chunk.text ⟨['一', '。'], ['一', '。'], ['一', '。'], 1⟩) ∧
    noDigits (Chunk.tts ⟨['一', '。'], ['一', '。'], ['一', '。'], 1⟩) := by
  refine ⟨by decide, ?_, ?_⟩
  · exact (digit_localization.2 0 1 [some ['1', '。']] _ (by decide)).1
  · exact (digit_localization.2 0 1 [some ['1', '。']] _ (by decide)).2

/-! ### Sentence-boundary property of non-final chunks (C5) -/

/-- Soundness of the punctuation search: a hit lies at or after the start
position, inside the text, and on a punctuation character. -/
theorem findPunctIdx_some_spec :
    ∀ (s : List Char) (st i : Nat), findPunctIdx s st = some i →
      st ≤ i ∧ i < s.length ∧ isPunct (s.getD i ' ') = true := by
  intro s
  induction s with
  | nil => intro st i h; cases h
  | cons c t ih =>
    intro st i h
    cases st with
    | zero =>
      by_cases hc : isPunct c = true
      · simp only [findPunctIdx, if_pos hc] at h
        cases h
        exact ⟨Nat.le_refl 0, Nat.succ_pos _, hc⟩
      · simp only [findPunctIdx, if_neg hc, Option.map_eq_some'] at h
        obtain ⟨j, hj, rfl⟩ := h
        obtain ⟨h1, h2, h3⟩ := ih 0 j hj
        exact ⟨Nat.zero_le _, by simpa using h2, by simpa using h3⟩
    | succ st =>
      simp only [findPunctIdx, Option.map_eq_some'] at h
      obtain ⟨j, hj, rfl⟩ := h
      obtain ⟨h1, h2, h3⟩ := ih st j hj
      exact ⟨Nat.succ_le_succ h1, by simpa using h2, by simpa using h3⟩

/-- The punctuation search restricted to the cut prefix still finds the
same hit: the hit is the first in the chunk at or after the threshold. -/
theorem findPunctIdx_take :
    ∀ (s : List Char) (st i : Nat), findPunctIdx s st = some i →
      findPunctIdx (s.take (i + 1)) st = some i := by
  intro s
  induction s with
  | nil => intro st i h; cases h
  | cons c t ih =>
    intro st i h
    cases st with
    | zero =>
      by_cases hc : isPunct c = true
      · simp only [findPunctIdx, if_pos hc] at h
        cases h
        simp [findPunctIdx, hc]
      · simp only [findPunctIdx, if_neg hc, Option.map_eq_some'] at h
        obtain ⟨j, hj, rfl⟩ := h
        simp only [List.take_succ_cons, findPunctIdx, if_neg hc, ih 0 j hj]
        rfl
    | succ st =>
      simp only [findPunctIdx, Option.map_eq_some'] at h
      obtain ⟨j, hj, rfl⟩ := h
      simp only [List.take_succ_cons, findPunctIdx, ih st j hj]
      rfl

/-- What C5 asserts of a chunk: viewed before stripping, its last
character is the first punctuation mark of the buffered text at offset
minChunkLength - 1 or later, so the chunk is at least minChunkLength
long and ends exactly on that punctuation mark. -/
def boundaryChunk (cl : Nat) (ch : Chunk) : Prop :=
  findPunctIdx ch.raw (cl - 1) = some (ch.raw.length - 1) ∧
  cl ≤ ch.raw.length ∧
  isPunct (ch.raw.getD (ch.raw.length - 1) ' ') = true

/-- All chunks of a list except possibly the last satisfy the boundary
property. -/
def boundaryPrefix (cl : Nat) (L : List Chunk) : Prop :=
  ∀ i, i + 1 < L.length → boundaryChunk cl (L.getD i default)

theorem boundaryPrefix_short {cl : Nat} {L : List Chunk} (h : L.length ≤ 1) :
    boundaryPrefix cl L :=
  fun _ hi => absurd hi (by omega)

theorem boundaryPrefix_append {cl : Nat} {L₁ L₂ : List Chunk}
    (h₁ : ∀ ch ∈ L₁, boundaryChunk cl ch) (h₂ : boundaryPrefix cl L₂) :
    boundaryPrefix cl (L₁ ++ L₂) := by
  intro i hi
  rw [List.length_append] at hi
  by_cases hlt : i < L₁.length
  · rw [List.getD_append _ _ _ _ hlt, List.getD_eq_getElem L₁ default hlt]
    exact h₁ _ (List.getElem_mem _)
  · push_neg at hlt
    rw [List.getD_append_right _ _ _ _ hlt]
    exact h₂ (i - L₁.length) (by omega)

/-- A chunk cut at a punctuation hit satisfies the boundary property. -/
theorem mkChunk_boundary {cl pg idx : Nat} {cleaner : List Char → List Char}
    {buf : List Char} (hidx : findPunctIdx buf (cl - 1) = some idx)
    {ch : Chunk} (hch : ch ∈ (mkChunk cleaner pg (buf.take (idx + 1))).toList) :
    boundaryChunk cl ch := by
  obtain ⟨hraw, -, -⟩ := mem_mkChunk hch
  obtain ⟨h1, h2, h3⟩ := findPunctIdx_some_spec buf (cl - 1) idx hidx
  have hlen : (buf.take (idx + 1)).length = idx + 1 := by
    rw [List.length_take]
    omega
  have htake := findPunctIdx_take buf (cl - 1) idx hidx
  obtain ⟨-, -, hp⟩ := findPunctIdx_some_spec _ (cl - 1) idx htake
  refine ⟨?_, ?_, ?_⟩
  · rw [hraw, hlen]
    simpa using htake
  · rw [hraw, hlen]
    omega
  · rw [hraw, hlen]
    simpa using hp

/-- The inner chunking loop: with more pages to come, every emitted chunk
ends on its boundary punctuation; on the last page the same holds for all
chunks but the final flush. -/
theorem chunkBufferFuel_boundary (cl : Nat) (cleaner : List Char → List Char)
    (pg : Nat) :
    ∀ (fuel : Nat) (buf : List Char),
      (∀ ch ∈ (chunkBufferFuel cl cleaner pg false fuel buf).1,
        boundaryChunk cl ch) ∧
      boundaryPrefix cl (chunkBufferFuel cl cleaner pg true fuel buf).1 := by
  intro fuel
  induction fuel with
  | zero =>
    intro buf
    exact ⟨fun ch hch => absurd hch (by simp [chunkBufferFuel]),
      by rw [show (chunkBufferFuel cl cleaner pg true 0 buf).1 = [] from rfl]
         exact boundaryPrefix_short (by simp)⟩
  | succ fuel ih =>
    intro buf
    by_cases hlen : cl ≤ buf.length
    · cases hidx : findPunctIdx buf (cl - 1) with
      | some idx =>
        have ihb := ih (buf.drop (idx + 1))
        constructor
        · rw [chunkBufferFuel_succ_some hlen hidx]
          intro ch hch
          rcases List.mem_append.mp hch with hch | hch
          · exact mkChunk_boundary hidx hch
          · exact ihb.1 ch hch
        · rw [chunkBufferFuel_succ_some hlen hidx]
          refine boundaryPrefix_append ?_ ihb.2
          intro ch hch
          exact mkChunk_boundary hidx hch
      | none =>
        constructor
        · rw [chunkBufferFuel_succ_none_mid hlen hidx]
          intro ch hch
          cases hch
        · rw [chunkBufferFuel_succ_none_last hlen hidx]
          refine boundaryPrefix_short ?_
          cases mkChunk cleaner pg buf <;> simp
    · constructor
      · rw [chunkBufferFuel_succ_short hlen]
        intro ch hch
        cases hch
      · rw [chunkBufferFuel_succ_short hlen]
        exact boundaryPrefix_short (by simp)

/-- The page loop emits boundary chunks in every position but the last. -/
theorem chunkPages_boundary (cl : Nat) (cleaner : List Char → List Char) :
    ∀ (pages : List (Option (List Char))) (pageIdx : Nat) (buf : List Char),
      boundaryPrefix cl (chunkPages cl cleaner pageIdx buf pages) := by
  intro pages
  induction pages with
  | nil => intro pageIdx buf; exact boundaryPrefix_short (by simp [chunkPages])
  | cons p rest ih =>
    intro pageIdx buf
    cases rest with
    | nil =>
      cases p with
      | none => exact boundaryPrefix_short (by simp [chunkPages])
      | some t =>
        simp only [chunkPages]
        exact (chunkBufferFuel_boundary cl cleaner (pageIdx + 1) _ _).2
    | cons q rs =>
      cases p with
      | none =>
        simp only [chunkPages]
        exact ih (pageIdx + 1) buf
      | some t =>
        simp only [chunkPages]
        refine boundaryPrefix_append ?_ (ih (pageIdx + 1) _)
        exact (chunkBufferFuel_boundary cl cleaner (pageIdx + 1) _ _).1

/-- C5: every non-final chunk the generator emits ends exactly at a
punctuation character from 。！？；, and viewed before stripping that
character sits at the chunk's last index, at or after minChunkLength - 1,
as the first punctuation occurrence of the buffered text at or after that
offset (no earlier punctuation of the buffer past the threshold lies
inside the chunk). -/
theorem nonfinal_chunk_boundary (startPage cl : Nat)
    (cleaner : List Char → List Char) (pages : List (Option (List Char)))
    (i : Nat)
    (h : i + 1 < (extract_text_chunks_from_range startPage cl cleaner pages).length) :
    boundaryChunk cl
      ((extract_text_chunks_from_range startPage cl cleaner pages).getD i default) :=
  chunkPages_boundary cl cleaner pages startPage [] i h

/-- Witness for C5 on the spec's own scenario: minChunkLength 50, page 1
is 80 characters with its 。 at index 60 (so the first punctuation at or
after offset 49 is at 60), page 2 has 50 characters ending in 。.  The
first chunk is exactly characters [0:61] of page 1 — 61 characters ending
on the 。 — and the remaining 19 characters were carried into page 2's
buffer, whose chunk closes the document. -/
theorem nonfinal_chunk_boundary_witness :
    0 + 1 < (extract_text_chunks_from_range 0 50 clean_text_for_tts
      [some (List.replicate 60 'a' ++ '。' :: List.replicate 19 'b'),
       some (List.replicate 49 'c' ++ ['。'])]).length ∧
    boundaryChunk 50
      ((extract_text_chunks_from_range 0 50 clean_text_for_tts
        [some (List.replicate 60 'a' ++ '。' :: List.replicate 19 'b'),
         some (List.replicate 49 'c' ++ ['。'])]).getD 0 default) ∧
    ((extract_text_chunks_from_range 0 50 clean_text_for_tts
      [some (List.replicate 60 'a' ++ '。' :: List.replicate 19 'b'),
       some (List.replicate 49 'c' ++ ['。'])]).getD 0 default).raw =
      List.replicate 60 'a' ++ ['。'] := by
  refine ⟨by decide, ?_, by decide⟩
  exact nonfinal_chunk_boundary 0 50 clean_text_for_tts
    [some (List.replicate 60 'a' ++ '。' :: List.replicate 19 'b'),
     some (List.replicate 49 'c' ++ ['。'])] 0 (by decide)

/-! ### Per-page extraction failure recovery (C8) -/

/-- The emission outcome of a cut ignores the page number except for the
page field itself. -/
theorem mkChunk_content (cleaner : List Char → List Char) (p q : Nat)
    (raw : List Char) :
    (mkChunk cleaner p raw).toList.map chunkContent =
      (mkChunk cleaner q raw).toList.map chunkContent := by
  unfold mkChunk
  split <;> simp [chunkContent]

/-- The inner chunking loop's chunk contents and leftover buffer do not
depend on the page number being stamped. -/
theorem chunkBufferFuel_content (cl : Nat) (cleaner : List Char → List Char)
    (p q : Nat) (il : Bool) :
    ∀ (fuel : Nat) (buf : List Char),
      ((chunkBufferFuel cl cleaner p il fuel buf).1.map chunkContent =
        (chunkBufferFuel cl cleaner q il fuel buf).1.map chunkContent) ∧
      (chunkBufferFuel cl cleaner p il fuel buf).2 =
        (chunkBufferFuel cl cleaner q il fuel buf).2 := by
  intro fuel
  induction fuel with
  | zero => intro buf; exact ⟨rfl, rfl⟩
  | succ fuel ih =>
    intro buf
    by_cases hlen : cl ≤ buf.length
    · cases hidx : findPunctIdx buf (cl - 1) with
      | some idx =>
        rw [@chunkBufferFuel_succ_some cl p fuel idx cleaner il buf hlen hidx,
          @chunkBufferFuel_succ_some cl q fuel idx cleaner il buf hlen hidx]
        refine ⟨?_, (ih _).2⟩
        simp only [List.map_append]
        rw [mkChunk_content cleaner p q, (ih _).1]
      | none =>
        cases il with
        | true =>
          rw [@chunkBufferFuel_succ_none_last cl p fuel cleaner buf hlen hidx,
            @chunkBufferFuel_succ_none_last cl q fuel cleaner buf hlen hidx]
          exact ⟨mkChunk_content cleaner p q buf, rfl⟩
        | false =>
          rw [@chunkBufferFuel_succ_none_mid cl p fuel cleaner buf hlen hidx,
            @chunkBufferFuel_succ_none_mid cl q fuel cleaner buf hlen hidx]
          exact ⟨rfl, rfl⟩
    · rw [@chunkBufferFuel_succ_short cl p fuel cleaner il buf hlen,
        @chunkBufferFuel_succ_short cl q fuel cleaner il buf hlen]
      exact ⟨rfl, rfl⟩

/-- The page loop's chunk contents do not depend on the starting page
number. -/
theorem chunkPages_content (cl : Nat) (cleaner : List Char → List Char) :
    ∀ (pages : List (Option (List Char))) (p q : Nat) (buf : List Char),
      (chunkPages cl cleaner p buf pages).map chunkContent =
        (chunkPages cl cleaner q buf pages).map chunkContent := by
  intro pages
  induction pages with
  | nil => intro p q buf; rfl
  | cons pg rest ih =>
    intro p q buf
    cases rest with
    | nil =>
      cases pg with
      | none => rfl
      | some t =>
        simp only [chunkPages, chunkBuffer]
        exact (chunkBufferFuel_content cl cleaner (p + 1) (q + 1) true _ _).1
    | cons r rs =>
      cases pg with
      | none =>
        simp only [chunkPages]
        exact ih (p + 1) (q + 1) buf
      | some t =>
        simp only [chunkPages, chunkBuffer, List.map_append]
        have hc := chunkBufferFuel_content cl cleaner (p + 1) (q + 1) false
          ((buf ++ applyDigitMap t).length + 1) (buf ++ applyDigitMap t)
        rw [hc.1, hc.2, ih (p + 1) (q + 1)]

/-- C8: a page whose extraction raises is logged and skipped — the page
cursor advances, the carried buffer is kept, and chunking continues with
the next page; the generator neither terminates nor lets the exception
propagate.  Formally: inserting a failing page anywhere before the last
page leaves the emitted chunk contents (raw, stripped and tts texts)
unchanged — only the page stamps shift past the skipped page. -/
theorem page_error_skipped (cl : Nat) (cleaner : List Char → List Char)
    (xs ys : List (Option (List Char))) (pageIdx : Nat) (buf : List Char)
    (h : ys ≠ []) :
    (chunkPages cl cleaner pageIdx buf (xs ++ none :: ys)).map chunkContent =
      (chunkPages cl cleaner pageIdx buf (xs ++ ys)).map chunkContent := by
  induction xs generalizing pageIdx buf with
  | nil =>
    obtain ⟨y, ys', rfl⟩ : ∃ y ys', ys = y :: ys' := by
      cases ys with
      | nil => exact absurd rfl h
      | cons a b => exact ⟨a, b, rfl⟩
    simp only [List.nil_append, chunkPages]
    exact chunkPages_content cl cleaner (y :: ys') (pageIdx + 1) pageIdx buf
  | cons x xs' ih =>
    obtain ⟨a, l, ha⟩ : ∃ a l, xs' ++ none :: ys = a :: l := by
      cases hxe : xs' ++ none :: ys with
      | nil => exact absurd hxe (by simp)
      | cons a l => exact ⟨a, l, rfl⟩
    obtain ⟨b, m, hb⟩ : ∃ b m, xs' ++ ys = b :: m := by
      cases hye : xs' ++ ys with
      | nil => exact absurd (List.append_eq_nil.mp hye).2 h
      | cons b m => exact ⟨b, m, rfl⟩
    cases x with
    | none =>
      rw [List.cons_append, List.cons_append, ha, hb]
      simp only [chunkPages]
      rw [← ha, ← hb]
      exact ih (pageIdx + 1) buf
    | some t =>
      rw [List.cons_append, List.cons_append, ha, hb]
      simp only [chunkPages, chunkBuffer, List.map_append]
      rw [← ha, ← hb, ih (pageIdx + 1)]

/-- Witness for C8: a failing middle page between two one-chunk pages
changes nothing about the emitted texts. -/
theorem page_error_skipped_witness :
    ([some ['甲', '。']] : List (Option (List Char))) ≠ [] ∧
    (chunkPages 1 clean_text_for_tts 0 []
        ([some ['乙', '。']] ++ none :: [some ['甲', '。']])).map chunkContent =
      (chunkPages 1 clean_text_for_tts 0 []
        ([some ['乙', '。']] ++ [some ['甲', '。']])).map chunkContent :=
  ⟨by decide, page_error_skipped 1 clean_text_for_tts [some ['乙', '。']]
    [some ['甲', '。']] 0 [] (by decide)⟩
